import Mathlib

/-!
Verification of the backtesthub orchestration core (`backtesthub/backtest.py`,
`backtesthub/strategy.py`) against its specification.

The embedding models the `Backtest` orchestrator shallowly: the calendar index
is a list of day ordinals, registries are ordered association lists (Python
`OrderedDict` semantics), and the side effects the run performs on its
collaborators (Broker, Pipeline, Strategy) are recorded as an event trace.
Collaborator internals (Broker accounting, pipeline/strategy logic) are
external to the repository and are abstracted: the Broker's cumulative-return
stream is an arbitrary function of the tick counter, and the configuration
constants of `backtesthub/utils/config.py` (a file not present in the sources)
are parameters, modelled from the spec's description of them.
-/

namespace BTHub

/-- Events the orchestrator performs on its collaborators, in the order the
Python code performs them.  `dataNext t` is the per-tick advance of the
registered data object with ticker `t`; the broker registration hooks
(`addCurr`/`addCarry`/`addMarket`) record the forwarding done by `add_base`. -/
inductive Ev where
  | mainNext
  | brokerNext
  | dataNext (t : String)
  | cfgBacktest
  | pipeInit
  | stratInit
  | hpipeInit
  | hstratInit
  | brokerBeg
  | pipeNext
  | stratNext
  | hpipeNext
  | hstratNext
  | brokerEnd
  | addCurr (t : String)
  | addCarry (t : String)
  | addMarket (t : String)
  deriving DecidableEq, Repr

/-- Registry entry: a data object registered with the orchestrator.  The
pandas payload is opaque (a tag); `filled` records whether `fill_OHLC` was
applied (it is for assets and hedges, not for bases). -/
structure Entry where
  ticker : String
  payload : Nat
  filled : Bool
  deriving DecidableEq, Repr

/-- Addresses of the three registry objects the orchestrator allocates in
`__init__` (`self.__bases`, `self.__assets`, `self.__hedges`).  Collaborators
store one of these addresses; mutation and observation go through them,
modelling Python reference semantics. -/
inductive Slot where
  | bases
  | assets
  | hedges
  deriving DecidableEq, Repr

/-- The heap of registry objects: one ordered dict per slot. -/
structure Store where
  bases : List (String × Entry)
  assets : List (String × Entry)
  hedges : List (String × Entry)
  deriving DecidableEq, Repr

def Store.read (s : Store) : Slot → List (String × Entry)
  | Slot.bases => s.bases
  | Slot.assets => s.assets
  | Slot.hedges => s.hedges

def Store.write (s : Store) : Slot → List (String × Entry) → Store
  | Slot.bases, d => { s with bases := d }
  | Slot.assets, d => { s with assets := d }
  | Slot.hedges, d => { s with hedges := d }

/-- Python `dict.update({k: v})`: replace in place when the key is present
(keeping its position), append otherwise. -/
def dictUpdate : List (String × Entry) → String → Entry → List (String × Entry)
  | [], k, v => [(k, v)]
  | (k', v') :: rest, k, v =>
      if k' = k then (k, v) :: rest else (k', v') :: dictUpdate rest k v

/-- Python `d.get(k)` on an ordered dict. -/
def dictGet (d : List (String × Entry)) (k : String) : Option Entry :=
  (d.find? (fun p => p.1 = k)).map Prod.snd

/-- The reference the primary (or hedge) Pipeline holds: `__init__` passes it
`assets=self.__assets` (`config_hedge` passes `assets=self.__hedges`). -/
structure PipelineObj where
  assetsRef : Slot
  deriving DecidableEq, Repr

/-- The references the Strategy holds: `__init__` passes it
`bases=self.__bases, assets=self.__assets` (`config_hedge` passes
`bases=self.__bases, assets=self.__hedges`). -/
structure StrategyObj where
  basesRef : Slot
  assetsRef : Slot
  deriving DecidableEq, Repr

/-- The orchestrator state (`Backtest.__init__`'s fields).  `index` is the
calendar's trading-day sequence (day ordinals); `cursor` is the main clock
Line's read position, so the current date `dt` is `index[cursor]`.
Modelled from the spec where the code is outside the sources: the `Line`
class of `backtesthub/utils/bases.py` is reduced to its cursor (the spec fixes
that advancing moves the cursor one step and that position 0 reads the value
at the cursor), and the initial cursor position is left as data of the
state. -/
structure Backtest where
  index : List Nat
  factor : Option String
  market : Option String
  asset : Option String
  hedge : Option String
  base : Option String
  hbase : Option String
  vertices : Option (List Int)
  store : Store
  pipeline : PipelineObj
  strategy : StrategyObj
  hpair : Option (PipelineObj × StrategyObj)
  cursor : Nat
  deriving DecidableEq, Repr

/-- Constructor `Backtest.__init__`: empty registries, the primary Pipeline bound to the
asset registry, the primary Strategy bound to the bases and asset registries,
no hedge pair. -/
def Backtest.init (index : List Nat)
    (factor market asset hedge base hbase : Option String)
    (vertices : Option (List Int)) (cursor0 : Nat) : Backtest where
  index := index
  factor := factor
  market := market
  asset := asset
  hedge := hedge
  base := base
  hbase := hbase
  vertices := vertices
  store := ⟨[], [], []⟩
  pipeline := ⟨Slot.assets⟩
  strategy := ⟨Slot.bases, Slot.assets⟩
  hpair := none
  cursor := cursor0

/-- Method `config_hedge`: construct the hedge Pipeline/Strategy pair, bound
to the hedge registry (and, for the strategy, the shared bases registry). -/
def Backtest.config_hedge (bt : Backtest) : Backtest :=
  { bt with hpair := some (⟨Slot.hedges⟩, ⟨Slot.bases, Slot.hedges⟩) }

/-- Python `str.upper()` (ASCII tickers). -/
def pyUpper (s : String) : String := s.toUpper

/-- Method `add_base`: register the base in `self.__bases`, then forward it
to the Broker's currency / carry / market registration hooks according to the
(case-insensitively matched) configured pair set, carry name and market name.
`pairs`, `carry` and `mkt` model the `_DEFAULT_PAIRS`, `_DEFAULT_CARRY` and
`_DEFAULT_MARKET` constants of `utils/config.py` (not in the sources). -/
def Backtest.add_base (bt : Backtest) (pairs : List String) (carry mkt : String)
    (t : String) (d : Nat) : Backtest × List Ev :=
  let bt' := { bt with
    store := bt.store.write Slot.bases
      (dictUpdate (bt.store.read Slot.bases) t ⟨t, d, false⟩) }
  let evs :=
    (if pairs.contains (pyUpper t) then [Ev.addCurr t] else [])
    ++ (if pyUpper t = carry then [Ev.addCarry t] else [])
    ++ (if pyUpper t = mkt then [Ev.addMarket t] else [])
  (bt', evs)

/-- Method `add_asset`: register an Asset (with `fill_OHLC` applied, recorded
by `filled := true`) in `self.__assets`. -/
def Backtest.add_asset (bt : Backtest) (t : String) (d : Nat) : Backtest :=
  { bt with
    store := bt.store.write Slot.assets
      (dictUpdate (bt.store.read Slot.assets) t ⟨t, d, true⟩) }

/-- Method `add_hedge`: register an Asset in `self.__hedges`. -/
def Backtest.add_hedge (bt : Backtest) (t : String) (d : Nat) : Backtest :=
  { bt with
    store := bt.store.write Slot.hedges
      (dictUpdate (bt.store.read Slot.hedges) t ⟨t, d, true⟩) }

/-- Merge of Python dict key sequences, as in `{**a, **b}`: keys of `a` in
order, then keys of `b` not already present. -/
def mergeKeys (xs ys : List String) : List String :=
  xs ++ ys.filter (fun k => !xs.contains k)

/-- Keys of `self.datas = {**self.__bases, **self.__assets, **self.__hedges}`,
in Python merge order. -/
def Backtest.datasKeys (bt : Backtest) : List String :=
  mergeKeys (mergeKeys ((bt.store.read Slot.bases).map Prod.fst)
      ((bt.store.read Slot.assets).map Prod.fst))
    ((bt.store.read Slot.hedges).map Prod.fst)

/-- Current date `self.dt` when the main Line's cursor stands at `cursor`:
`self.__main[0]` reads the index at the cursor. -/
def Backtest.dt (bt : Backtest) (cursor : Nat) : Nat :=
  bt.index.getD cursor 0

/-- The last date `self.__lastdate = self.__index[-1]`. -/
def Backtest.lastdate (bt : Backtest) : Nat :=
  bt.index.getD (bt.index.length - 1) 0

/-- Trace of one iteration of the run loop: `__advance_buffers` (the main
clock, the Broker's clock, every registered data Line, one step each), Broker
begin-of-period, primary pipeline/strategy `next`, the hedge pair's `next`
when the hedge registry is non-empty, Broker end-of-period. -/
def Backtest.tickTrace (bt : Backtest) : List Ev :=
  [Ev.mainNext, Ev.brokerNext] ++ bt.datasKeys.map Ev.dataNext
    ++ [Ev.brokerBeg, Ev.pipeNext, Ev.stratNext]
    ++ (if bt.store.hedges = [] then [] else [Ev.hpipeNext, Ev.hstratNext])
    ++ [Ev.brokerEnd]

/-- Result of the run loop: the emitted event trace, the tick counter, and
the main Line's cursor when the loop exits. -/
structure LoopRes where
  trace : List Ev
  ticks : Nat
  cursor : Nat
  deriving DecidableEq, Repr

/-- The `while self.dt < self.__lastdate` loop of `Backtest.run`.  `cumRet k`
is the Broker's `cum_return` as observed at the end of the tick numbered `k`
(the Broker is an external collaborator, so its return stream is an arbitrary
function of the tick counter); `maxLoss` models `_DEFAULT_MAX_LOSS`.  `fuel`
bounds the recursion and is instantiated with the calendar length, which the
loop never exhausts. -/
def runLoop (bt : Backtest) (cumRet : Nat → Rat) (maxLoss : Rat) :
    Nat → Nat → Nat → LoopRes
  | 0, cursor, k => ⟨[], k, cursor⟩
  | fuel + 1, cursor, k =>
      if bt.dt cursor < bt.lastdate then
        if cumRet k < maxLoss then ⟨bt.tickTrace, k + 1, cursor + 1⟩
        else
          let rest := runLoop bt cumRet maxLoss fuel (cursor + 1) (k + 1)
          ⟨bt.tickTrace ++ rest.trace, rest.ticks, rest.cursor⟩
      else ⟨[], k, cursor⟩

/-- Outcome of `Backtest.run`: Python returns `None` when no assets are
registered, raises `AttributeError` when the hedge registry is non-empty but
`config_hedge` was never invoked (`self.__hpipeline` does not exist), and
otherwise returns the result bundle (meta / quotas / records / broker),
summarized by the number of completed ticks. -/
inductive RunOutcome where
  | noResult
  | attrError
  | bundle (numTicks : Nat)
  deriving DecidableEq, Repr

/-- Method `run`: early exit on an empty asset registry; `config_backtest`;
`init` on the primary pipeline then strategy; `init` on the hedge pair when
the hedge registry is non-empty; then the loop. -/
def Backtest.run (bt : Backtest) (cumRet : Nat → Rat) (maxLoss : Rat) :
    RunOutcome × List Ev :=
  if bt.store.assets = [] then (RunOutcome.noResult, [])
  else
    let pre := [Ev.cfgBacktest, Ev.pipeInit, Ev.stratInit]
    if bt.store.hedges = [] then
      let l := runLoop bt cumRet maxLoss bt.index.length bt.cursor 0
      (RunOutcome.bundle l.ticks, pre ++ l.trace)
    else
      match bt.hpair with
      | none => (RunOutcome.attrError, pre)
      | some _ =>
          let l := runLoop bt cumRet maxLoss bt.index.length bt.cursor 0
          (RunOutcome.bundle l.ticks, pre ++ [Ev.hpipeInit, Ev.hstratInit] ++ l.trace)

/-- Number of loop iterations a run performs. -/
def Backtest.numTicks (bt : Backtest) (cumRet : Nat → Rat) (maxLoss : Rat) : Nat :=
  (runLoop bt cumRet maxLoss bt.index.length bt.cursor 0).ticks

/-- Trace emitted by the run loop alone. -/
def Backtest.loopTrace (bt : Backtest) (cumRet : Nat → Rat) (maxLoss : Rat) : List Ev :=
  (runLoop bt cumRet maxLoss bt.index.length bt.cursor 0).trace

/-- Cursor position of the main Line when the run loop exits. -/
def Backtest.endCursor (bt : Backtest) (cumRet : Nat → Rat) (maxLoss : Rat) : Nat :=
  (runLoop bt cumRet maxLoss bt.index.length bt.cursor 0).cursor

/-- Events that write shared time state: the advance of the main clock, of the
Broker's clock, and of a registered data Line. -/
def Ev.isTimeWrite : Ev → Bool
  | Ev.mainNext => true
  | Ev.brokerNext => true
  | Ev.dataNext _ => true
  | _ => false

/-- The tick counter never decreases along the loop. -/
theorem runLoop_ticks_ge (bt : Backtest) (cumRet : Nat → Rat) (maxLoss : Rat) :
    ∀ (fuel cursor k : Nat), k ≤ (runLoop bt cumRet maxLoss fuel cursor k).ticks := by
  intro fuel
  induction fuel with
  | zero => intro cursor k; simp [runLoop]
  | succ fuel ih =>
      intro cursor k
      simp only [runLoop]
      split
      · split
        · simp
        · exact Nat.le_trans (Nat.le_succ k) (ih (cursor + 1) (k + 1))
      · simp

/-- The cursor advances in lockstep with the tick counter: one step per
completed tick. -/
theorem runLoop_cursor_eq (bt : Backtest) (cumRet : Nat → Rat) (maxLoss : Rat) :
    ∀ (fuel cursor k : Nat),
      (runLoop bt cumRet maxLoss fuel cursor k).cursor =
        cursor + ((runLoop bt cumRet maxLoss fuel cursor k).ticks - k) := by
  intro fuel
  induction fuel with
  | zero => intro cursor k; simp [runLoop]
  | succ fuel ih =>
      intro cursor k
      simp only [runLoop]
      split
      · split
        · simp
        · have h1 := ih (cursor + 1) (k + 1)
          have h2 := runLoop_ticks_ge bt cumRet maxLoss fuel (cursor + 1) (k + 1)
          simp only [h1]
          omega
      · simp

/-- The loop trace is the per-iteration trace repeated once per completed
tick. -/
theorem runLoop_trace_eq (bt : Backtest) (cumRet : Nat → Rat) (maxLoss : Rat) :
    ∀ (fuel cursor k : Nat),
      (runLoop bt cumRet maxLoss fuel cursor k).trace =
        List.flatten (List.replicate
          ((runLoop bt cumRet maxLoss fuel cursor k).ticks - k) bt.tickTrace) := by
  intro fuel
  induction fuel with
  | zero => intro cursor k; simp [runLoop]
  | succ fuel ih =>
      intro cursor k
      simp only [runLoop]
      split
      · split
        · simp
        · have h1 := ih (cursor + 1) (k + 1)
          have h2 := runLoop_ticks_ge bt cumRet maxLoss fuel (cursor + 1) (k + 1)
          simp only [h1]
          have h3 : (runLoop bt cumRet maxLoss fuel (cursor + 1) (k + 1)).ticks - k =
              ((runLoop bt cumRet maxLoss fuel (cursor + 1) (k + 1)).ticks - (k + 1)) + 1 := by
            omega
          rw [h3, List.replicate_succ, List.flatten_cons]
      · simp

/-- A breach of the max-loss threshold at the end of a tick that the loop
performs stops the loop within that iteration: that tick is the last one. -/
theorem runLoop_stop (bt : Backtest) (cumRet : Nat → Rat) (maxLoss : Rat) :
    ∀ (fuel cursor k j : Nat), k ≤ j →
      j < (runLoop bt cumRet maxLoss fuel cursor k).ticks →
      cumRet j < maxLoss →
      (runLoop bt cumRet maxLoss fuel cursor k).ticks = j + 1 := by
  intro fuel
  induction fuel with
  | zero =>
      intro cursor k j hkj hj _
      simp [runLoop] at hj
      omega
  | succ fuel ih =>
      intro cursor k j hkj hj hbr
      simp only [runLoop] at hj ⊢
      by_cases hg : bt.dt cursor < bt.lastdate
      · simp only [hg, if_true] at hj ⊢
        by_cases hbrk : cumRet k < maxLoss
        · simp only [hbrk, if_true] at hj ⊢
          omega
        · simp only [hbrk, if_false] at hj ⊢
          rcases Nat.eq_or_lt_of_le hkj with heq | hlt
          · subst heq
            exact absurd hbr hbrk
          · exact ih (cursor + 1) (k + 1) j hlt hj hbr
      · simp only [hg, if_false] at hj
        omega

/-- When the current date is strictly before the last date, the cursor is not
yet at the final index position. -/
theorem Backtest.guard_lt (bt : Backtest) {c : Nat} (hc : c < bt.index.length)
    (hg : bt.dt c < bt.lastdate) : c + 1 < bt.index.length := by
  by_contra h
  have hc' : c = bt.index.length - 1 := by omega
  have : bt.dt c = bt.lastdate := by
    simp [Backtest.dt, Backtest.lastdate, hc']
  omega

/-- Starting from a valid cursor position, the loop performs at most
`N - 1 - cursor` iterations: the date guard fails at the final index
position. -/
theorem runLoop_ticks_bound (bt : Backtest) (cumRet : Nat → Rat) (maxLoss : Rat) :
    ∀ (fuel cursor k : Nat), cursor < bt.index.length →
      (runLoop bt cumRet maxLoss fuel cursor k).ticks - k ≤
        (bt.index.length - 1) - cursor := by
  intro fuel
  induction fuel with
  | zero => intro cursor k _; simp [runLoop]
  | succ fuel ih =>
      intro cursor k hc
      simp only [runLoop]
      split
      · rename_i hg
        have hc1 : cursor + 1 < bt.index.length := bt.guard_lt hc hg
        split
        · simp
          omega
        · have h1 := ih (cursor + 1) (k + 1) hc1
          have h2 := runLoop_ticks_ge bt cumRet maxLoss fuel (cursor + 1) (k + 1)
          simp only
          omega
      · simp

/-- On a strictly increasing calendar, a date at or before the final position
is at most the last date. -/
theorem Backtest.dt_le_lastdate (bt : Backtest) (hs : List.Sorted (· < ·) bt.index)
    {c : Nat} (hne : bt.index ≠ []) (hc : c ≤ bt.index.length - 1) :
    bt.dt c ≤ bt.lastdate := by
  have hlen : 0 < bt.index.length := List.length_pos.mpr hne
  have hc' : c < bt.index.length := by omega
  have hl' : bt.index.length - 1 < bt.index.length := by omega
  rw [Backtest.dt, Backtest.lastdate, List.getD_eq_getElem bt.index 0 hc',
    List.getD_eq_getElem bt.index 0 hl']
  have := hs.get_strictMono.monotone
    (a := ⟨c, hc'⟩) (b := ⟨bt.index.length - 1, hl'⟩) (by simpa using hc)
  simpa using this

/-- Occurrence count of an event in a repeated trace. -/
theorem count_flatten_replicate (n : Nat) (l : List Ev) (e : Ev) :
    (List.flatten (List.replicate n l)).count e = n * l.count e := by
  induction n with
  | zero => simp
  | succ n ih =>
      rw [List.replicate_succ, List.flatten_cons, List.count_append, ih, Nat.succ_mul]
      omega

/-- Per-tick data advances rename tickers injectively. -/
theorem dataNext_injective : Function.Injective Ev.dataNext := by
  intro a b h
  simpa using h

/-- An event that is no data advance does not occur among the data
advances. -/
theorem count_map_dataNext_eq_zero (l : List String) (e : Ev)
    (he : ∀ t, e ≠ Ev.dataNext t) : (l.map Ev.dataNext).count e = 0 := by
  rw [List.count_eq_zero]
  simp only [List.mem_map, not_exists]
  intro t h
  exact he t h.2.symm

/-- Claim C2: within every iteration of the run loop the operations occur in
the fixed order — advance of the main clock, the Broker's clock and every
registered data Line (one step each), then Broker begin-of-period, then
primary Pipeline.next, then primary Strategy.next, then (when the hedge track
is active) hedge Pipeline.next then hedge Strategy.next, then Broker
end-of-period — and the advance block is the only write to shared time state
in the tick. -/
theorem tick_call_order (bt : Backtest) (cumRet : Nat → Rat) (maxLoss : Rat) :
    bt.loopTrace cumRet maxLoss =
      List.flatten (List.replicate (bt.numTicks cumRet maxLoss) bt.tickTrace) ∧
    bt.tickTrace =
      [Ev.mainNext, Ev.brokerNext] ++ bt.datasKeys.map Ev.dataNext
        ++ [Ev.brokerBeg, Ev.pipeNext, Ev.stratNext]
        ++ (if bt.store.hedges = [] then [] else [Ev.hpipeNext, Ev.hstratNext])
        ++ [Ev.brokerEnd] ∧
    bt.tickTrace.filter Ev.isTimeWrite =
      [Ev.mainNext, Ev.brokerNext] ++ bt.datasKeys.map Ev.dataNext := by
  refine ⟨?_, rfl, ?_⟩
  · have h := runLoop_trace_eq bt cumRet maxLoss bt.index.length bt.cursor 0
    simpa [Backtest.loopTrace, Backtest.numTicks] using h
  · have hmap : ∀ l : List String,
        (l.map Ev.dataNext).filter Ev.isTimeWrite = l.map Ev.dataNext := by
      intro l
      induction l with
      | nil => rfl
      | cons x xs ih => simp [Ev.isTimeWrite, ih]
    by_cases hh : bt.store.hedges = [] <;>
      simp [Backtest.tickTrace, hh, List.filter_append, hmap, Ev.isTimeWrite]

/-- Claim C3: if at the end of any tick the Broker's cumulative return is
below the max-loss threshold, the loop terminates within that same iteration
— that tick is the last one — and the tick already applied stays in the
trace. -/
theorem max_loss_breaks_loop (bt : Backtest) (cumRet : Nat → Rat) (maxLoss : Rat)
    (k : Nat) (hk : k < bt.numTicks cumRet maxLoss) (hbr : cumRet k < maxLoss) :
    bt.numTicks cumRet maxLoss = k + 1 ∧
    bt.loopTrace cumRet maxLoss =
      List.flatten (List.replicate (k + 1) bt.tickTrace) := by
  have h1 := runLoop_stop bt cumRet maxLoss bt.index.length bt.cursor 0 k
    (Nat.zero_le k) (by simpa [Backtest.numTicks] using hk) hbr
  have h2 := runLoop_trace_eq bt cumRet maxLoss bt.index.length bt.cursor 0
  refine ⟨by simpa [Backtest.numTicks] using h1, ?_⟩
  rw [Backtest.loopTrace, h2, h1]
  simp

/-- Concrete run whose first tick breaches the max-loss threshold. -/
def btBreach : Backtest :=
  (Backtest.init [0, 1, 2] (some "F") (some "M") (some "A") none none none
    none 0).add_asset "A" 1

/-- Witness for C3: on a three-day calendar with a breach at the first tick,
the loop stops after exactly that one tick. -/
theorem max_loss_breaks_loop_witness :
    btBreach.numTicks (fun _ => -2) (-1) = 0 + 1 :=
  (max_loss_breaks_loop btBreach (fun _ => -2) (-1) 0 (by decide) (by decide)).1

/-- Claim C4: run on a Backtest with an empty asset registry returns no
result bundle and performs no collaborator call at all (empty trace),
whatever the rest of the configuration. -/
theorem run_noop_without_assets (bt : Backtest) (cumRet : Nat → Rat)
    (maxLoss : Rat) (h : bt.store.assets = []) :
    bt.run cumRet maxLoss = (RunOutcome.noResult, []) := by
  simp [Backtest.run, h]

/-- Concrete Backtest with no assets but a configured, populated hedge
track. -/
def btNoAssets : Backtest :=
  ((Backtest.init [0, 1, 2] (some "F") (some "M") (some "A") (some "H") none
    none none 0).add_hedge "H" 2).config_hedge

/-- Witness for C4: with a non-empty hedge registry and a configured hedge
pair but no assets, run is a silent no-op. -/
theorem run_noop_without_assets_witness :
    btNoAssets.run (fun _ => 0) (-1) = (RunOutcome.noResult, []) :=
  run_noop_without_assets btNoAssets (fun _ => 0) (-1) (by decide)

/-- Claim C5 (amended): on a run with a non-empty asset registry, a
configured hedge pair and a non-empty hedge registry, the hedge Pipeline and
Strategy each receive exactly one init call, placed before the loop and after
the primary pair, and exactly one next call per tick, placed after the
primary pair and before Broker end-of-period. -/
theorem hedge_pair_lifecycle (bt : Backtest) (cumRet : Nat → Rat) (maxLoss : Rat)
    (ha : bt.store.assets ≠ []) (hh : bt.store.hedges ≠ [])
    (hp : bt.hpair.isSome) :
    (bt.run cumRet maxLoss).2 =
      [Ev.cfgBacktest, Ev.pipeInit, Ev.stratInit, Ev.hpipeInit, Ev.hstratInit]
        ++ bt.loopTrace cumRet maxLoss ∧
    (bt.run cumRet maxLoss).2.count Ev.hpipeInit = 1 ∧
    (bt.run cumRet maxLoss).2.count Ev.hstratInit = 1 ∧
    bt.loopTrace cumRet maxLoss =
      List.flatten (List.replicate (bt.numTicks cumRet maxLoss) bt.tickTrace) ∧
    bt.tickTrace.count Ev.hpipeNext = 1 ∧
    bt.tickTrace.count Ev.hstratNext = 1 ∧
    bt.tickTrace =
      [Ev.mainNext, Ev.brokerNext] ++ bt.datasKeys.map Ev.dataNext
        ++ [Ev.brokerBeg, Ev.pipeNext, Ev.stratNext, Ev.hpipeNext,
            Ev.hstratNext, Ev.brokerEnd] := by
  obtain ⟨pr, hpr⟩ := Option.isSome_iff_exists.mp hp
  have htr : (bt.run cumRet maxLoss).2 =
      [Ev.cfgBacktest, Ev.pipeInit, Ev.stratInit, Ev.hpipeInit, Ev.hstratInit]
        ++ bt.loopTrace cumRet maxLoss := by
    simp [Backtest.run, ha, hh, hpr, Backtest.loopTrace]
  have htick : bt.tickTrace =
      [Ev.mainNext, Ev.brokerNext] ++ bt.datasKeys.map Ev.dataNext
        ++ [Ev.brokerBeg, Ev.pipeNext, Ev.stratNext, Ev.hpipeNext,
            Ev.hstratNext, Ev.brokerEnd] := by
    simp [Backtest.tickTrace, hh]
  have hloop : bt.loopTrace cumRet maxLoss =
      List.flatten (List.replicate (bt.numTicks cumRet maxLoss) bt.tickTrace) := by
    have h := runLoop_trace_eq bt cumRet maxLoss bt.index.length bt.cursor 0
    simpa [Backtest.loopTrace, Backtest.numTicks] using h
  have hcnt : ∀ e : Ev, (∀ t, e ≠ Ev.dataNext t) → bt.tickTrace.count e =
      [Ev.mainNext, Ev.brokerNext, Ev.brokerBeg, Ev.pipeNext, Ev.stratNext,
        Ev.hpipeNext, Ev.hstratNext, Ev.brokerEnd].count e := by
    intro e he
    rw [htick]
    simp [List.count_append, count_map_dataNext_eq_zero _ e he, List.count_cons]
  have hinit : ∀ e : Ev, (∀ t, e ≠ Ev.dataNext t) → bt.tickTrace.count e = 0 →
      (bt.run cumRet maxLoss).2.count e =
        [Ev.cfgBacktest, Ev.pipeInit, Ev.stratInit, Ev.hpipeInit,
          Ev.hstratInit].count e := by
    intro e _ h0
    rw [htr, List.count_append, hloop, count_flatten_replicate, h0]
    omega
  refine ⟨htr, ?_, ?_, hloop, ?_, ?_, htick⟩
  · rw [hinit Ev.hpipeInit (by intro t h; cases h) (by rw [hcnt] <;> simp)]
    decide
  · rw [hinit Ev.hstratInit (by intro t h; cases h) (by rw [hcnt] <;> simp)]
    decide
  · rw [hcnt Ev.hpipeNext (by intro t h; cases h)]
    decide
  · rw [hcnt Ev.hstratNext (by intro t h; cases h)]
    decide

/-- Concrete Backtest with assets, hedges and a configured hedge pair. -/
def btHedged : Backtest :=
  (((Backtest.init [0, 1, 2] (some "F") (some "M") (some "A") (some "H") none
    none none 0).add_asset "A" 1).add_hedge "H" 2).config_hedge

/-- Witness for C5 (amended): the hedge Pipeline receives exactly one init
call on a populated hedged run. -/
theorem hedge_pair_lifecycle_witness :
    (btHedged.run (fun _ => 0) (-1)).2.count Ev.hpipeInit = 1 :=
  (hedge_pair_lifecycle btHedged (fun _ => 0) (-1) (by decide) (by decide)
    (by decide)).2.1

/-- Concrete Backtest on which config_hedge was invoked but no hedge asset was
registered. -/
def btHedgeCfgOnly : Backtest :=
  ((Backtest.init [0, 1, 2] (some "F") (some "M") (some "A") (some "H") none
    none none 0).add_asset "A" 1).config_hedge

/-- Counterexample to C5 as stated: with config_hedge invoked but an empty
hedge registry, the run proceeds and the hedge Pipeline and Strategy receive
no init call at all (the guard tests the hedge registry, not whether
config_hedge was invoked). -/
theorem hedge_init_skipped_cex :
    btHedgeCfgOnly.hpair.isSome = true ∧
    btHedgeCfgOnly.store.assets ≠ [] ∧
    ¬ ((btHedgeCfgOnly.run (fun _ => 0) (-1)).2.count Ev.hpipeInit = 1 ∧
      (btHedgeCfgOnly.run (fun _ => 0) (-1)).2.count Ev.hstratInit = 1) := by
  decide

/-- Claim C8: for a calendar of N trading days the loop performs at most
N − 1 iterations, each one advancing the main clock, the Broker and every
registered data Line exactly one step, and it terminates at the last calendar
date or earlier. -/
theorem run_loop_step_bound (bt : Backtest) (cumRet : Nat → Rat) (maxLoss : Rat)
    (hs : List.Sorted (· < ·) bt.index) (hc : bt.cursor < bt.index.length)
    (hnd : bt.datasKeys.Nodup) :
    bt.numTicks cumRet maxLoss ≤ bt.index.length - 1 ∧
    (bt.loopTrace cumRet maxLoss).count Ev.mainNext = bt.numTicks cumRet maxLoss ∧
    (bt.loopTrace cumRet maxLoss).count Ev.brokerNext =
      bt.numTicks cumRet maxLoss ∧
    (∀ t ∈ bt.datasKeys, (bt.loopTrace cumRet maxLoss).count (Ev.dataNext t) =
      bt.numTicks cumRet maxLoss) ∧
    bt.endCursor cumRet maxLoss = bt.cursor + bt.numTicks cumRet maxLoss ∧
    bt.dt (bt.endCursor cumRet maxLoss) ≤ bt.lastdate := by
  have hbound := runLoop_ticks_bound bt cumRet maxLoss bt.index.length bt.cursor 0 hc
  have hticks : bt.numTicks cumRet maxLoss ≤ bt.index.length - 1 - bt.cursor := by
    simpa [Backtest.numTicks] using hbound
  have hloop : bt.loopTrace cumRet maxLoss =
      List.flatten (List.replicate (bt.numTicks cumRet maxLoss) bt.tickTrace) := by
    have h := runLoop_trace_eq bt cumRet maxLoss bt.index.length bt.cursor 0
    simpa [Backtest.loopTrace, Backtest.numTicks] using h
  have hcursor : bt.endCursor cumRet maxLoss =
      bt.cursor + bt.numTicks cumRet maxLoss := by
    have h := runLoop_cursor_eq bt cumRet maxLoss bt.index.length bt.cursor 0
    simpa [Backtest.endCursor, Backtest.numTicks] using h
  have hcnt1 : bt.tickTrace.count Ev.mainNext = 1 := by
    by_cases hh : bt.store.hedges = [] <;>
      simp [Backtest.tickTrace, hh, List.count_append, List.count_cons,
        count_map_dataNext_eq_zero _ Ev.mainNext (by intro t h; cases h)]
  have hcnt2 : bt.tickTrace.count Ev.brokerNext = 1 := by
    by_cases hh : bt.store.hedges = [] <;>
      simp [Backtest.tickTrace, hh, List.count_append, List.count_cons,
        count_map_dataNext_eq_zero _ Ev.brokerNext (by intro t h; cases h)]
  refine ⟨by omega, ?_, ?_, ?_, hcursor, ?_⟩
  · rw [hloop, count_flatten_replicate, hcnt1]
    omega
  · rw [hloop, count_flatten_replicate, hcnt2]
    omega
  · intro t ht
    have hmap : (bt.datasKeys.map Ev.dataNext).count (Ev.dataNext t) = 1 := by
      rw [List.count_map_of_injective _ _ dataNext_injective]
      exact List.count_eq_one_of_mem hnd ht
    have hcnt3 : bt.tickTrace.count (Ev.dataNext t) = 1 := by
      by_cases hh : bt.store.hedges = [] <;>
        simp [Backtest.tickTrace, hh, List.count_append, List.count_cons, hmap]
    rw [hloop, count_flatten_replicate, hcnt3]
    omega
  · have hne : bt.index ≠ [] := by
      intro h
      rw [h] at hc
      simp at hc
    refine bt.dt_le_lastdate hs hne ?_
    omega

/-- Concrete Backtest for the C8 witness. -/
def btPlain : Backtest :=
  (Backtest.init [0, 1, 2] (some "F") (some "M") (some "A") none none none
    none 0).add_asset "A" 1

/-- Witness for C8: a three-day calendar yields at most two loop
iterations. -/
theorem run_loop_step_bound_witness :
    btPlain.numTicks (fun _ => 0) (-1) ≤ 3 - 1 :=
  (run_loop_step_bound btPlain (fun _ => 0) (-1) (by decide) (by decide)
    (by decide)).1

/-- Claim C6: classification of a base ticker in `add_base`.  A ticker whose
upper-cased form lies in the configured currency-pair set is forwarded exactly
once to the Broker's currency hook; one equal to the configured carry name
exactly once to the carry hook; one equal to the configured market name
exactly once to the market hook; a ticker matching none of these reaches no
Broker hook. -/
theorem add_base_forwarding (bt : Backtest) (pairs : List String)
    (carry mkt t : String) (d : Nat) :
    (pairs.contains (pyUpper t) = true →
      (bt.add_base pairs carry mkt t d).2.count (Ev.addCurr t) = 1) ∧
    (pairs.contains (pyUpper t) = false →
      (bt.add_base pairs carry mkt t d).2.count (Ev.addCurr t) = 0) ∧
    (pyUpper t = carry →
      (bt.add_base pairs carry mkt t d).2.count (Ev.addCarry t) = 1) ∧
    (pyUpper t ≠ carry →
      (bt.add_base pairs carry mkt t d).2.count (Ev.addCarry t) = 0) ∧
    (pyUpper t = mkt →
      (bt.add_base pairs carry mkt t d).2.count (Ev.addMarket t) = 1) ∧
    (pyUpper t ≠ mkt →
      (bt.add_base pairs carry mkt t d).2.count (Ev.addMarket t) = 0) ∧
    (pairs.contains (pyUpper t) = false → pyUpper t ≠ carry → pyUpper t ≠ mkt →
      (bt.add_base pairs carry mkt t d).2 = []) := by
  by_cases h1 : pyUpper t ∈ pairs <;>
    by_cases h2 : pyUpper t = carry <;>
      by_cases h3 : pyUpper t = mkt <;>
        simp_all [Backtest.add_base, List.count_append, List.count_cons]

/-- Python truthiness of an optional string: `None` and the empty string are
falsy. -/
def pyTruthy : Option String → Bool
  | none => false
  | some s => !s.isEmpty

/-- Rendering of an optional string inside an f-string: `None` prints as
"None". -/
def pyFmtOpt : Option String → String
  | none => "None"
  | some s => s

/-- Separator chosen by `mapper = dict(EXPO="/", BETA="#")` for the configured
hedge method (`_DEFAULT_HEDGE`, a constant of `utils/config.py` not in the
sources); an unknown method raises `KeyError`, modelled as `none`. -/
def hedgeSeparator (m : String) : Option String :=
  if m = "EXPO" then some "/" else if m = "BETA" then some "#" else none

/-- Property `bookname`: factor, market and asset joined with "-", and, when
the hedge ticker is truthy, the hedge-method separator followed by the hedge
ticker. -/
def Backtest.bookname (bt : Backtest) (hedgeMethod : String) : Option String :=
  let book := pyFmtOpt bt.factor ++ "-" ++ pyFmtOpt bt.market ++ "-"
    ++ pyFmtOpt bt.asset
  if pyTruthy bt.hedge then
    (hedgeSeparator hedgeMethod).map (fun sep => book ++ sep ++ pyFmtOpt bt.hedge)
  else some book

/-- Claim C7: the book label is factor-market-asset joined with "-"; with a
hedge ticker configured, a hedge-method-dependent separator ("/" for
exposure-based, "#" for beta-based) and the hedge ticker are appended; the
spec's concrete scenario evaluates as stated. -/
theorem bookname_format (bt : Backtest) :
    (bt.hedge = none → ∀ m : String, bt.bookname m =
      some (pyFmtOpt bt.factor ++ "-" ++ pyFmtOpt bt.market ++ "-"
        ++ pyFmtOpt bt.asset)) ∧
    (∀ h : String, bt.hedge = some h → h ≠ "" →
      bt.bookname "EXPO" =
        some (pyFmtOpt bt.factor ++ "-" ++ pyFmtOpt bt.market ++ "-"
          ++ pyFmtOpt bt.asset ++ "/" ++ h) ∧
      bt.bookname "BETA" =
        some (pyFmtOpt bt.factor ++ "-" ++ pyFmtOpt bt.market ++ "-"
          ++ pyFmtOpt bt.asset ++ "#" ++ h)) ∧
    (Backtest.init [0] (some "RISKPAR") (some "COMMODITIES") (some "BIAU39")
      (some "DOL") none none none 0).bookname "EXPO" =
        some "RISKPAR-COMMODITIES-BIAU39/DOL" ∧
    (Backtest.init [0] (some "RISKPAR") (some "COMMODITIES") (some "BIAU39")
      none none none none 0).bookname "EXPO" =
        some "RISKPAR-COMMODITIES-BIAU39" := by
  refine ⟨?_, ?_, by decide, by decide⟩
  · intro h m
    simp [Backtest.bookname, h, pyTruthy]
  · intro h hh hne
    have hf : h.isEmpty = false := by
      rw [Bool.eq_false_iff]
      intro hcontra
      exact hne ((String.isEmpty_iff h).mp hcontra)
    constructor <;>
      simp [Backtest.bookname, pyTruthy, hf, hedgeSeparator, hh, pyFmtOpt]

/-- Dynamic type tag of a data object passed to `Strategy.I`.  Modelled from
the spec and the `Union[Base, Asset, Hedge]` annotation of `strategy.py`:
Base, Asset and Hedge are the data classes of `backtesthub/utils/bases.py`
(a file not among the sources), with distinct dynamic types, and the
assertion compares the exact dynamic type of its argument. -/
inductive DynType where
  | base
  | asset
  | hedge
  deriving DecidableEq, Repr

/-- Outcome of a `Strategy.I` call: whether the `assert type(data) == Asset`
failed, whether the indicator function was invoked, and whether a failure
raised by the indicator function was re-raised. -/
structure IResult where
  assertFailed : Bool
  fInvoked : Bool
  raisedFromF : Bool
  deriving DecidableEq, Repr

/-- Method `Strategy.I(data, f, **params)`: the assertion on the exact dynamic type
of `data` runs first; only if it passes is the indicator function invoked
(any exception it raises is caught and re-raised as a generic Exception) and
the indicator line stored.  `fRaises` abstracts whether the user-supplied
indicator function raises. -/
def strategyI (dataTy : DynType) (fRaises : Bool) : IResult :=
  if dataTy = DynType.asset then
    if fRaises then ⟨false, true, true⟩ else ⟨false, true, false⟩
  else ⟨true, false, false⟩

/-- Claim C10: a `Strategy.I` call whose data argument is not exactly an
Asset (in particular a Base or a Hedge) fails the assertion before the
indicator function is invoked; with an Asset the assertion never fails. -/
theorem strategyI_asserts_exact_asset (dataTy : DynType) (fRaises : Bool) :
    (dataTy ≠ DynType.asset → strategyI dataTy fRaises =
      ⟨true, false, false⟩) ∧
    (dataTy = DynType.asset → (strategyI dataTy fRaises).assertFailed = false) ∧
    strategyI DynType.base fRaises = ⟨true, false, false⟩ ∧
    strategyI DynType.hedge fRaises = ⟨true, false, false⟩ := by
  cases dataTy <;> cases fRaises <;> decide

/-- Registration calls the caller may perform between construction and the
run. -/
inductive AddOp where
  | addBase (pairs : List String) (carry mkt t : String) (d : Nat)
  | addAsset (t : String) (d : Nat)
  | addHedge (t : String) (d : Nat)
  | cfgHedge
  deriving DecidableEq, Repr

def applyOp (bt : Backtest) : AddOp → Backtest
  | AddOp.addBase pairs carry mkt t d => (bt.add_base pairs carry mkt t d).1
  | AddOp.addAsset t d => bt.add_asset t d
  | AddOp.addHedge t d => bt.add_hedge t d
  | AddOp.cfgHedge => bt.config_hedge

def applyOps (bt : Backtest) (ops : List AddOp) : Backtest :=
  ops.foldl applyOp bt

/-- Registry the primary Pipeline observes through its held reference. -/
def Backtest.pipelineView (bt : Backtest) : List (String × Entry) :=
  bt.store.read bt.pipeline.assetsRef

/-- Asset registry the primary Strategy observes through its held
reference. -/
def Backtest.strategyAssetsView (bt : Backtest) : List (String × Entry) :=
  bt.store.read bt.strategy.assetsRef

/-- Bases registry the primary Strategy observes through its held
reference. -/
def Backtest.strategyBasesView (bt : Backtest) : List (String × Entry) :=
  bt.store.read bt.strategy.basesRef

theorem Store.read_write_self (s : Store) (sl : Slot) (d : List (String × Entry)) :
    (s.write sl d).read sl = d := by
  cases sl <;> rfl

theorem dictGet_dictUpdate (dct : List (String × Entry)) (k : String) (v : Entry) :
    dictGet (dictUpdate dct k v) k = some v := by
  induction dct with
  | nil => simp [dictUpdate, dictGet, List.find?]
  | cons p rest ih =>
      by_cases h : p.1 = k
      · simp [dictUpdate, h, dictGet, List.find?]
      · simpa [dictUpdate, h, dictGet, List.find?] using ih

theorem applyOp_refs (bt : Backtest) (op : AddOp) :
    (applyOp bt op).pipeline = bt.pipeline ∧
    (applyOp bt op).strategy = bt.strategy ∧
    ((applyOp bt op).hpair = bt.hpair ∨
      (applyOp bt op).hpair = some (⟨Slot.hedges⟩, ⟨Slot.bases, Slot.hedges⟩)) := by
  cases op <;>
    simp [applyOp, Backtest.add_base, Backtest.add_asset, Backtest.add_hedge,
      Backtest.config_hedge]

theorem applyOps_cons (bt : Backtest) (op : AddOp) (ops : List AddOp) :
    applyOps bt (op :: ops) = applyOps (applyOp bt op) ops := rfl

theorem applyOps_refs (ops : List AddOp) (bt : Backtest) :
    (applyOps bt ops).pipeline = bt.pipeline ∧
    (applyOps bt ops).strategy = bt.strategy ∧
    ((applyOps bt ops).hpair = bt.hpair ∨
      (applyOps bt ops).hpair = some (⟨Slot.hedges⟩, ⟨Slot.bases, Slot.hedges⟩)) := by
  induction ops generalizing bt with
  | nil => exact ⟨rfl, rfl, Or.inl rfl⟩
  | cons op ops ih =>
      have h1 := applyOp_refs bt op
      have h2 := ih (applyOp bt op)
      rw [applyOps_cons]
      refine ⟨h2.1.trans h1.1, h2.2.1.trans h1.2.1, ?_⟩
      rcases h2.2.2 with h | h
      · rcases h1.2.2 with h' | h'
        · exact Or.inl (h.trans h')
        · exact Or.inr (h.trans h')
      · exact Or.inr h

/-- Claim C9 (amended): the collaborators constructed by `__init__` (and by
`config_hedge`) hold references to the very registry objects the add-methods
mutate, so each observes — through its held reference — every later
registration into a registry it holds: the Pipeline and the Strategy observe
`add_asset`, the Strategy observes `add_base`, and the hedge pair observes
`add_hedge`.  No reference is rebound by any later operation. -/
theorem shared_registry_visibility (index : List Nat)
    (factor market asset hedge base hbase : Option String)
    (vertices : Option (List Int)) (cursor0 : Nat) (ops : List AddOp)
    (t : String) (d : Nat) (pairs : List String) (carry mkt : String) :
    (applyOps (Backtest.init index factor market asset hedge base hbase
        vertices cursor0) ops).pipeline = ⟨Slot.assets⟩ ∧
    (applyOps (Backtest.init index factor market asset hedge base hbase
        vertices cursor0) ops).strategy = ⟨Slot.bases, Slot.assets⟩ ∧
    dictGet ((applyOps (Backtest.init index factor market asset hedge base
        hbase vertices cursor0) ops).add_asset t d).pipelineView t =
      some ⟨t, d, true⟩ ∧
    dictGet ((applyOps (Backtest.init index factor market asset hedge base
        hbase vertices cursor0) ops).add_asset t d).strategyAssetsView t =
      some ⟨t, d, true⟩ ∧
    dictGet (Prod.fst ((applyOps (Backtest.init index factor market asset
        hedge base hbase vertices cursor0) ops).add_base pairs carry mkt t
          d)).strategyBasesView t = some ⟨t, d, false⟩ ∧
    (∀ (hp : PipelineObj) (hs : StrategyObj),
      (applyOps (Backtest.init index factor market asset hedge base hbase
        vertices cursor0) ops).hpair = some (hp, hs) →
      hp = ⟨Slot.hedges⟩ ∧ hs = ⟨Slot.bases, Slot.hedges⟩ ∧
      dictGet (((applyOps (Backtest.init index factor market asset hedge base
        hbase vertices cursor0) ops).add_hedge t d).store.read hp.assetsRef) t =
          some ⟨t, d, true⟩) := by
  have href := applyOps_refs ops
    (Backtest.init index factor market asset hedge base hbase vertices cursor0)
  have hp : (applyOps (Backtest.init index factor market asset hedge base hbase
      vertices cursor0) ops).pipeline = ⟨Slot.assets⟩ := href.1
  have hst : (applyOps (Backtest.init index factor market asset hedge base hbase
      vertices cursor0) ops).strategy = ⟨Slot.bases, Slot.assets⟩ := href.2.1
  refine ⟨hp, hst, ?_, ?_, ?_, ?_⟩
  · rw [Backtest.pipelineView]
    simp [Backtest.add_asset, hp, Store.read_write_self, dictGet_dictUpdate]
  · rw [Backtest.strategyAssetsView]
    simp [Backtest.add_asset, hst, Store.read_write_self, dictGet_dictUpdate]
  · rw [Backtest.strategyBasesView]
    simp [Backtest.add_base, hst, Store.read_write_self, dictGet_dictUpdate]
  · intro hpipe hstrat hEq
    rcases href.2.2 with h | h
    · rw [hEq] at h
      simp [Backtest.init] at h
    · rw [hEq] at h
      have h' := (Option.some.injEq _ _).mp h
      have h1 : hpipe = ⟨Slot.hedges⟩ := congrArg Prod.fst h'
      have h2 : hstrat = ⟨Slot.bases, Slot.hedges⟩ := congrArg Prod.snd h'
      refine ⟨h1, h2, ?_⟩
      rw [h1]
      simp [Backtest.add_hedge, Store.read_write_self, dictGet_dictUpdate]

/-- Concrete Backtest on which a hedge asset is registered after
construction. -/
def btHedgeReg : Backtest :=
  (Backtest.init [0, 1] (some "F") (some "M") (some "A") (some "DOL") none
    none none 0).add_hedge "DOL" 7

/-- Counterexample to C9 as stated: a registration performed via `add_hedge`
after construction is observed by neither the constructor-built Pipeline nor
the constructor-built Strategy — no reference either holds reaches the hedge
registry. -/
theorem shared_registry_cex :
    ¬ ((dictGet btHedgeReg.pipelineView "DOL").isSome = true ∨
      (dictGet btHedgeReg.strategyAssetsView "DOL").isSome = true ∨
      (dictGet btHedgeReg.strategyBasesView "DOL").isSome = true) := by
  decide

/-- Single-quote character, the string delimiter Python repr uses. -/
def sq : Char := Char.ofNat 39

/-- Opening curly bracket character of a Python dict rendering. -/
def lcub : Char := Char.ofNat 123

/-- Closing curly bracket character of a Python dict rendering. -/
def rcub : Char := Char.ofNat 125

/-- Characters of Python's rendering of `None`. -/
def noneChars : List Char := ['N', 'o', 'n', 'e']

/-- Plain characters: printable ASCII other than the single quote and the
backslash.  On strings over this set Python's `repr` is the string between
single quotes, which is what the rendering below produces; every real ticker,
class name and parameter name of the repository falls in this set. -/
def plainChar (c : Char) : Bool :=
  decide (32 ≤ c.toNat ∧ c.toNat ≤ 126 ∧ c.toNat ≠ 39 ∧ c.toNat ≠ 92)

def plainStr (s : String) : Bool := s.data.all plainChar

def plainOpt : Option String → Bool
  | none => true
  | some s => plainStr s

/-- Python `repr` of a plain string: the characters between single quotes. -/
def pyReprStr (s : String) : List Char := sq :: (s.data ++ [sq])

/-- Python repr of an optional string as `str(dict)` renders dict values:
`None`, or the quoted string. -/
def pyReprOptStr : Option String → List Char
  | none => noneChars
  | some s => pyReprStr s

def digitChar (d : Nat) : Char := Char.ofNat (48 + d)

/-- Python `str` of a natural number: decimal digits, most significant
first. -/
def pyReprNat (n : Nat) : List Char :=
  if n = 0 then [digitChar 0] else ((Nat.digits 10 n).map digitChar).reverse

/-- Python `str` of an integer. -/
def pyReprInt : Int → List Char
  | Int.ofNat n => pyReprNat n
  | Int.negSucc n => '-' :: pyReprNat (n + 1)

/-- Python `str` of a list of integers, without the brackets. -/
def pyReprIntList : List Int → List Char
  | [] => []
  | [i] => pyReprInt i
  | i :: j :: rest => pyReprInt i ++ ',' :: ' ' :: pyReprIntList (j :: rest)

/-- Python `str` of an optional list of integers. -/
def pyReprOptIntList : Option (List Int) → List Char
  | none => noneChars
  | some l => '[' :: (pyReprIntList l ++ [']'])

/-- Python `str` of a string-keyed parameter dict, without the braces. -/
def pyReprParamsBody : List (String × Int) → List Char
  | [] => []
  | [(k, v)] => pyReprStr k ++ ':' :: ' ' :: pyReprInt v
  | (k, v) :: q :: rest =>
      pyReprStr k ++ ':' :: ' ' :: (pyReprInt v ++ ',' :: ' ' ::
        pyReprParamsBody (q :: rest))

/-- Python `str` of the parameter dict. -/
def pyReprParams (ps : List (String × Int)) : List Char :=
  lcub :: (pyReprParamsBody ps ++ [rcub])

/-- The canonical configuration map `self.__hash` that `config_backtest`
builds: the seven construction-time configuration fields, the pipeline and
strategy class names, the strategy parameters, and the volatility-budget and
buffer constants.  The strategy parameters are modelled as string-keyed
integer values (`Strategy.get_params`, whose code is outside the sources,
returns the strategy's parameter dict; the repository's examples use integer
parameters), and `budget`/`buffer` model the numeric `_DEFAULT_VOLATILITY`
and `_DEFAULT_BUFFER` constants of `utils/config.py`, also outside the
sources. -/
structure ConfigHash where
  factor : Option String
  market : Option String
  asset : Option String
  hedge : Option String
  base : Option String
  hbase : Option String
  vertices : Option (List Int)
  pipeline : String
  model : String
  params : List (String × Int)
  budget : Int
  buffer : Int
  deriving DecidableEq, Repr

/-- All string fields of the map are plain. -/
def plainMap (m : ConfigHash) : Bool :=
  plainOpt m.factor && plainOpt m.market && plainOpt m.asset
    && plainOpt m.hedge && plainOpt m.base && plainOpt m.hbase
    && plainStr m.pipeline && plainStr m.model
    && m.params.all (fun p => plainStr p.1)

/-- Key separator of a Python dict rendering: comma, space, quoted key,
colon, space. -/
def fieldSep (key : String) : List Char :=
  ',' :: ' ' :: sq :: (key.data ++ sq :: ':' :: [' '])

/-- Python `str(self.__hash)`: the dict literal rendering, keys in the
insertion order `config_backtest` uses. -/
def canonicalChars (m : ConfigHash) : List Char :=
  lcub :: sq :: ("factor".data ++ sq :: ':' :: ' ' ::
    (pyReprOptStr m.factor ++ (fieldSep "market" ++ (pyReprOptStr m.market ++
    (fieldSep "asset" ++ (pyReprOptStr m.asset ++ (fieldSep "hedge" ++
    (pyReprOptStr m.hedge ++ (fieldSep "base" ++ (pyReprOptStr m.base ++
    (fieldSep "hbase" ++ (pyReprOptStr m.hbase ++ (fieldSep "vertices" ++
    (pyReprOptIntList m.vertices ++ (fieldSep "pipeline" ++
    (pyReprStr m.pipeline ++ (fieldSep "model" ++ (pyReprStr m.model ++
    (fieldSep "params" ++ (pyReprParams m.params ++ (fieldSep "budget" ++
    (pyReprInt m.budget ++ (fieldSep "buffer" ++ (pyReprInt m.buffer ++
    [rcub]))))))))))))))))))))))))

/-- The stringified canonical map fed to the hash. -/
def canonicalStr (m : ConfigHash) : String := String.mk (canonicalChars m)

/-- Identifier space of a version-3 UUID: 128-bit values. -/
abbrev UID := Fin (2 ^ 128)

/-- Stand-in for Python's `uuid3(NAMESPACE_DNS, s)`, an MD5-based external
library function: a fixed deterministic function from strings into the
128-bit identifier space.  Every fact proved about it below relies only on
what it shares with the real digest — it is a fixed function into a finite
space. -/
def uuid3 (s : String) : UID :=
  ⟨s.hash.toNat % 2 ^ 128, Nat.mod_lt _ (by norm_num)⟩

/-- The canonical map built from the orchestrator state, the collaborator
type names, the strategy parameters and the two constants. -/
def Backtest.configHash (bt : Backtest) (pipelineName modelName : String)
    (params : List (String × Int)) (budget buffer : Int) : ConfigHash :=
  ⟨bt.factor, bt.market, bt.asset, bt.hedge, bt.base, bt.hbase, bt.vertices,
    pipelineName, modelName, params, budget, buffer⟩

/-- The run identity `config_backtest` derives: the namespace hash of the
stringified canonical map. -/
def Backtest.uid (bt : Backtest) (pipelineName modelName : String)
    (params : List (String × Int)) (budget buffer : Int) : UID :=
  uuid3 (canonicalStr (bt.configHash pipelineName modelName params budget buffer))

theorem sq_notMem_of_plain {s : String} (h : plainStr s = true) :
    sq ∉ s.data := by
  intro hmem
  have hp := List.all_eq_true.mp h sq hmem
  have hf : plainChar sq = false := by decide
  rw [hf] at hp
  exact Bool.false_ne_true hp

theorem string_data_inj {a b : String} (h : a.data = b.data) : a = b := by
  cases a
  cases b
  exact congrArg String.mk h

/-- Two delimiter-free tokens followed by the delimiter are recoverable from
the concatenation. -/
theorem delim_append_inj {d : Char} : ∀ {s1 s2 t1 t2 : List Char},
    d ∉ s1 → d ∉ s2 → s1 ++ d :: t1 = s2 ++ d :: t2 → s1 = s2 ∧ t1 = t2 := by
  intro s1
  induction s1 with
  | nil =>
      intro s2 t1 t2 _ h2 e
      cases s2 with
      | nil => exact ⟨rfl, by simpa using e⟩
      | cons c s2 =>
          exfalso
          simp only [List.nil_append, List.cons_append, List.cons.injEq] at e
          exact h2 (by rw [e.1]; exact List.mem_cons_self _ _)
  | cons c s1 ih =>
      intro s2 t1 t2 h1 h2 e
      cases s2 with
      | nil =>
          exfalso
          simp only [List.cons_append, List.nil_append, List.cons.injEq] at e
          obtain ⟨rfl, -⟩ := e
          exact h1 (List.mem_cons_self _ _)
      | cons c' s2 =>
          simp only [List.cons_append, List.cons.injEq] at e
          obtain ⟨rfl, e2⟩ := e
          have h := ih (fun hx => h1 (List.mem_cons_of_mem _ hx))
            (fun hx => h2 (List.mem_cons_of_mem _ hx)) e2
          exact ⟨by rw [h.1], h.2⟩

/-- Two tokens over a character class, each followed by text starting outside
the class, are recoverable from the concatenation. -/
theorem run_append_inj {p : Char → Bool} : ∀ {s1 s2 t1 t2 : List Char},
    (∀ c ∈ s1, p c = true) → (∀ c ∈ s2, p c = true) →
    (∀ c, t1.head? = some c → p c = false) →
    (∀ c, t2.head? = some c → p c = false) →
    s1 ++ t1 = s2 ++ t2 → s1 = s2 ∧ t1 = t2 := by
  intro s1
  induction s1 with
  | nil =>
      intro s2 t1 t2 _ hs2 ht1 _ e
      cases s2 with
      | nil => exact ⟨rfl, e⟩
      | cons c s2 =>
          exfalso
          simp only [List.nil_append, List.cons_append] at e
          have hx := ht1 c (by rw [e]; rfl)
          have hy := hs2 c (List.mem_cons_self _ _)
          rw [hx] at hy
          exact Bool.false_ne_true hy
  | cons c s1 ih =>
      intro s2 t1 t2 hs1 hs2 ht1 ht2 e
      cases s2 with
      | nil =>
          exfalso
          simp only [List.cons_append, List.nil_append] at e
          have hx := ht2 c (by rw [← e]; rfl)
          have hy := hs1 c (List.mem_cons_self _ _)
          rw [hx] at hy
          exact Bool.false_ne_true hy
      | cons c' s2 =>
          simp only [List.cons_append, List.cons.injEq] at e
          obtain ⟨rfl, e2⟩ := e
          have h := ih (fun x hx => hs1 x (List.mem_cons_of_mem _ hx))
            (fun x hx => hs2 x (List.mem_cons_of_mem _ hx)) ht1 ht2 e2
          exact ⟨by rw [h.1], h.2⟩

theorem digitChar_digit {d : Nat} (hd : d < 10) :
    48 ≤ (digitChar d).toNat ∧ (digitChar d).toNat ≤ 57 := by
  interval_cases d <;> decide

/-- Decimal value of a rendered number: the left inverse of `pyReprNat`. -/
def unrender (l : List Char) : Nat :=
  Nat.ofDigits 10 (l.reverse.map (fun c => c.toNat - 48))

theorem unrender_pyReprNat (n : Nat) : unrender (pyReprNat n) = n := by
  by_cases hn : n = 0
  · subst hn
    decide
  · rw [pyReprNat, if_neg hn, unrender, List.reverse_reverse, List.map_map]
    have hmap : (Nat.digits 10 n).map ((fun c => c.toNat - 48) ∘ digitChar) =
        (Nat.digits 10 n).map id := by
      apply List.map_congr_left
      intro d hd
      have hlt : d < 10 := Nat.digits_lt_base (by norm_num) hd
      interval_cases d <;> decide
    rw [hmap, List.map_id, Nat.ofDigits_digits]

theorem pyReprNat_inj {m n : Nat} (e : pyReprNat m = pyReprNat n) : m = n := by
  have h := unrender_pyReprNat m
  rw [e, unrender_pyReprNat] at h
  exact h.symm

theorem pyReprNat_isDigit (n : Nat) :
    ∀ c ∈ pyReprNat n, 48 ≤ c.toNat ∧ c.toNat ≤ 57 := by
  intro c hc
  by_cases hn : n = 0
  · subst hn
    simp [pyReprNat] at hc
    subst hc
    decide
  · rw [pyReprNat, if_neg hn, List.mem_reverse] at hc
    obtain ⟨d, hd, rfl⟩ := List.mem_map.mp hc
    exact digitChar_digit (Nat.digits_lt_base (by norm_num) hd)

theorem pyReprNat_ne_nil (n : Nat) : pyReprNat n ≠ [] := by
  by_cases hn : n = 0
  · subst hn
    decide
  · rw [pyReprNat, if_neg hn]
    simp [Nat.digits_ne_nil_iff_ne_zero, hn]

/-- Characters a rendered integer consists of: decimal digits and the minus
sign. -/
def numChar (c : Char) : Bool :=
  decide ((48 ≤ c.toNat ∧ c.toNat ≤ 57) ∨ c.toNat = 45)

theorem pyReprInt_numChar (i : Int) : ∀ c ∈ pyReprInt i, numChar c = true := by
  cases i with
  | ofNat n =>
      intro c hc
      have h := pyReprNat_isDigit n c hc
      simp only [numChar, decide_eq_true_eq]
      omega
  | negSucc n =>
      intro c hc
      rcases List.mem_cons.mp hc with rfl | h
      · decide
      · have h' := pyReprNat_isDigit (n + 1) c h
        simp only [numChar, decide_eq_true_eq]
        omega

theorem pyReprInt_ne_nil (i : Int) : pyReprInt i ≠ [] := by
  cases i with
  | ofNat n => exact pyReprNat_ne_nil n
  | negSucc n => simp [pyReprInt]

theorem pyReprNat_ne_neg_cons (m n : Nat) :
    pyReprNat m ≠ '-' :: pyReprNat (n + 1) := by
  intro e
  obtain ⟨c, l, hcl⟩ : ∃ c l, pyReprNat m = c :: l := by
    cases hml : pyReprNat m with
    | nil => exact absurd hml (pyReprNat_ne_nil m)
    | cons c l => exact ⟨c, l, rfl⟩
  rw [hcl] at e
  injection e with h1 _
  have hd := pyReprNat_isDigit m c (by rw [hcl]; exact List.mem_cons_self _ _)
  subst h1
  have h45 : ('-' : Char).toNat = 45 := by decide
  rw [h45] at hd
  omega

theorem pyReprInt_inj {a b : Int} (e : pyReprInt a = pyReprInt b) : a = b := by
  cases a with
  | ofNat m =>
      cases b with
      | ofNat n => exact congrArg Int.ofNat (pyReprNat_inj e)
      | negSucc n => exact absurd e (pyReprNat_ne_neg_cons m n)
  | negSucc m =>
      cases b with
      | ofNat n => exact absurd e.symm (pyReprNat_ne_neg_cons n m)
      | negSucc n =>
          simp only [pyReprInt, List.cons.injEq, true_and] at e
          have h := pyReprNat_inj e
          have hmn : m = n := by omega
          rw [hmn]

theorem head_not_num_of_eq (x : Char) (hx : numChar x = false) (r : List Char) :
    ∀ c, (x :: r).head? = some c → numChar c = false := by
  intro c hc
  rw [List.head?_cons, Option.some.injEq] at hc
  exact hc ▸ hx

theorem head_none_not_num : ∀ c : Char, ([] : List Char).head? = some c →
    numChar c = false := by
  intro c hc
  cases hc

theorem str_field_inj {a b : String} {r1 r2 : List Char}
    (ha : plainStr a = true) (hb : plainStr b = true)
    (e : pyReprStr a ++ r1 = pyReprStr b ++ r2) : a = b ∧ r1 = r2 := by
  have e' : a.data ++ sq :: r1 = b.data ++ sq :: r2 := by
    simpa [pyReprStr, List.cons_append, List.append_assoc,
      List.singleton_append, List.cons.injEq] using e
  have h := delim_append_inj (sq_notMem_of_plain ha) (sq_notMem_of_plain hb) e'
  exact ⟨string_data_inj h.1, h.2⟩

theorem optStr_field_inj {a b : Option String} {r1 r2 : List Char}
    (ha : plainOpt a = true) (hb : plainOpt b = true)
    (e : pyReprOptStr a ++ r1 = pyReprOptStr b ++ r2) : a = b ∧ r1 = r2 := by
  cases a with
  | none =>
      cases b with
      | none =>
          refine ⟨rfl, ?_⟩
          simpa [pyReprOptStr, noneChars] using e
      | some s =>
          exfalso
          simp only [pyReprOptStr, noneChars, pyReprStr, List.cons_append,
            List.cons.injEq] at e
          exact absurd e.1 (by decide)
  | some s =>
      cases b with
      | none =>
          exfalso
          simp only [pyReprOptStr, noneChars, pyReprStr, List.cons_append,
            List.cons.injEq] at e
          exact absurd e.1 (by decide)
      | some s' =>
          have h := str_field_inj (by simpa [plainOpt] using ha)
            (by simpa [plainOpt] using hb) (by simpa [pyReprOptStr] using e)
          exact ⟨by rw [h.1], h.2⟩

theorem int_field_inj {a b : Int} {r1 r2 : List Char}
    (hr1 : ∀ c, r1.head? = some c → numChar c = false)
    (hr2 : ∀ c, r2.head? = some c → numChar c = false)
    (e : pyReprInt a ++ r1 = pyReprInt b ++ r2) : a = b ∧ r1 = r2 := by
  have h := run_append_inj (pyReprInt_numChar a) (pyReprInt_numChar b) hr1 hr2 e
  exact ⟨pyReprInt_inj h.1, h.2⟩

theorem pyReprIntList_chars : ∀ (l : List Int), ∀ c ∈ pyReprIntList l,
    numChar c = true ∨ c = ',' ∨ c = ' '
  | [] => by
      intro c hc
      simp [pyReprIntList] at hc
  | [i] => by
      intro c hc
      simp only [pyReprIntList] at hc
      exact Or.inl (pyReprInt_numChar i c hc)
  | i :: j :: rest => by
      intro c hc
      simp only [pyReprIntList, List.mem_append, List.mem_cons] at hc
      rcases hc with h | h | h | h
      · exact Or.inl (pyReprInt_numChar i c h)
      · exact Or.inr (Or.inl h)
      · exact Or.inr (Or.inr h)
      · exact pyReprIntList_chars (j :: rest) c h

theorem intList_body_inj : ∀ (l1 l2 : List Int),
    pyReprIntList l1 = pyReprIntList l2 → l1 = l2
  | [], [], _ => rfl
  | [], [j], e => by
      exfalso
      simp only [pyReprIntList] at e
      exact pyReprInt_ne_nil j e.symm
  | [], j :: k :: rest, e => by
      exfalso
      simp only [pyReprIntList] at e
      rcases List.append_eq_nil.mp e.symm with ⟨h1, -⟩
      exact pyReprInt_ne_nil j h1
  | [i], [], e => by
      exfalso
      simp only [pyReprIntList] at e
      exact pyReprInt_ne_nil i e
  | i :: j :: rest, [], e => by
      exfalso
      simp only [pyReprIntList] at e
      rcases List.append_eq_nil.mp e with ⟨h1, -⟩
      exact pyReprInt_ne_nil i h1
  | [i], [j], e => by
      simp only [pyReprIntList] at e
      rw [pyReprInt_inj e]
  | [i], j :: k :: rest, e => by
      exfalso
      simp only [pyReprIntList] at e
      rw [← List.append_nil (pyReprInt i)] at e
      have h := run_append_inj (pyReprInt_numChar i) (pyReprInt_numChar j)
        head_none_not_num (head_not_num_of_eq ',' (by decide) _) e
      cases h.2
  | i :: j :: rest, [k], e => by
      exfalso
      simp only [pyReprIntList] at e
      rw [← List.append_nil (pyReprInt k)] at e
      have h := run_append_inj (pyReprInt_numChar i) (pyReprInt_numChar k)
        (head_not_num_of_eq ',' (by decide) _) head_none_not_num e
      cases h.2
  | i :: j :: rest, k :: l :: rest', e => by
      simp only [pyReprIntList] at e
      have h := run_append_inj (pyReprInt_numChar i) (pyReprInt_numChar k)
        (head_not_num_of_eq ',' (by decide) _) (head_not_num_of_eq ',' (by decide) _) e
      have h2 := h.2
      simp only [List.cons.injEq, true_and] at h2
      have := intList_body_inj (j :: rest) (l :: rest') h2
      rw [pyReprInt_inj h.1, this]

theorem rbrack_notMem_intList (l : List Int) : (']' : Char) ∉ pyReprIntList l := by
  intro hm
  rcases pyReprIntList_chars l _ hm with h | h | h
  · exact absurd h (by decide)
  · exact absurd h (by decide)
  · exact absurd h (by decide)

theorem optIntList_field_inj {a b : Option (List Int)} {r1 r2 : List Char}
    (e : pyReprOptIntList a ++ r1 = pyReprOptIntList b ++ r2) :
    a = b ∧ r1 = r2 := by
  cases a with
  | none =>
      cases b with
      | none =>
          refine ⟨rfl, ?_⟩
          simpa [pyReprOptIntList, noneChars] using e
      | some l =>
          exfalso
          simp only [pyReprOptIntList, noneChars, List.cons_append,
            List.cons.injEq] at e
          exact absurd e.1 (by decide)
  | some l =>
      cases b with
      | none =>
          exfalso
          simp only [pyReprOptIntList, noneChars, List.cons_append,
            List.cons.injEq] at e
          exact absurd e.1 (by decide)
      | some l' =>
          simp only [pyReprOptIntList, List.cons_append, List.cons.injEq,
            List.append_assoc, List.singleton_append, true_and] at e
          obtain ⟨e1, e2⟩ := delim_append_inj (rbrack_notMem_intList l)
            (rbrack_notMem_intList l') e
          rw [intList_body_inj l l' e1]
          exact ⟨rfl, e2⟩

/-- One key-value pair of the parameter dict followed by arbitrary text:
recover the key, the value and the text. -/
theorem param_pair_inj {k1 k2 : String} {v1 v2 : Int} {r1 r2 : List Char}
    (hk1 : plainStr k1 = true) (hk2 : plainStr k2 = true)
    (hr1 : ∀ c, r1.head? = some c → numChar c = false)
    (hr2 : ∀ c, r2.head? = some c → numChar c = false)
    (e : pyReprStr k1 ++ ':' :: ' ' :: (pyReprInt v1 ++ r1) =
      pyReprStr k2 ++ ':' :: ' ' :: (pyReprInt v2 ++ r2)) :
    k1 = k2 ∧ v1 = v2 ∧ r1 = r2 := by
  obtain ⟨ek, er⟩ := str_field_inj hk1 hk2 e
  simp only [List.cons.injEq, true_and] at er
  obtain ⟨ev, er'⟩ := int_field_inj hr1 hr2 er
  exact ⟨ek, ev, er'⟩

theorem params_body_inj : ∀ (ps qs : List (String × Int)) {r1 r2 : List Char},
    (∀ p ∈ ps, plainStr p.1 = true) → (∀ q ∈ qs, plainStr q.1 = true) →
    pyReprParamsBody ps ++ rcub :: r1 = pyReprParamsBody qs ++ rcub :: r2 →
    ps = qs ∧ r1 = r2
  | [], [], r1, r2, _, _, e => by
      simp only [pyReprParamsBody, List.nil_append, List.cons.injEq,
        true_and] at e
      exact ⟨rfl, e⟩
  | [], (k, v) :: qs, r1, r2, _, _, e => by
      exfalso
      cases qs <;>
        · simp only [pyReprParamsBody, pyReprStr, List.nil_append,
            List.cons_append, List.cons.injEq] at e
          exact absurd e.1 (by decide)
  | (k, v) :: ps, [], r1, r2, _, _, e => by
      exfalso
      cases ps <;>
        · simp only [pyReprParamsBody, pyReprStr, List.nil_append,
            List.cons_append, List.cons.injEq] at e
          exact absurd e.1 (by decide)
  | [(k1, v1)], [(k2, v2)], r1, r2, hp, hq, e => by
      simp only [pyReprParamsBody, List.append_assoc, List.cons_append] at e
      have h := param_pair_inj (hp _ (List.mem_cons_self _ _))
        (hq _ (List.mem_cons_self _ _))
        (head_not_num_of_eq rcub (by decide) _)
        (head_not_num_of_eq rcub (by decide) _)
        (by simpa [List.append_assoc] using e)
      obtain ⟨ek, ev, er⟩ := h
      have ek2 : k1 = k2 := ek
      simp only [List.cons.injEq, true_and] at er
      rw [ek2, ev]
      exact ⟨rfl, er⟩
  | [(k1, v1)], (k2, v2) :: (q :: qs), r1, r2, hp, hq, e => by
      exfalso
      simp only [pyReprParamsBody, List.append_assoc, List.cons_append] at e
      have h := param_pair_inj (hp _ (List.mem_cons_self _ _))
        (hq _ (List.mem_cons_self _ _))
        (head_not_num_of_eq rcub (by decide) _)
        (head_not_num_of_eq ',' (by decide) _)
        (by simpa [List.append_assoc] using e)
      obtain ⟨-, -, er⟩ := h
      simp only [List.cons.injEq] at er
      exact absurd er.1 (by decide)
  | (k1, v1) :: (p :: ps), [(k2, v2)], r1, r2, hp, hq, e => by
      exfalso
      simp only [pyReprParamsBody, List.append_assoc, List.cons_append] at e
      have h := param_pair_inj (hp _ (List.mem_cons_self _ _))
        (hq _ (List.mem_cons_self _ _))
        (head_not_num_of_eq ',' (by decide) _)
        (head_not_num_of_eq rcub (by decide) _)
        (by simpa [List.append_assoc] using e)
      obtain ⟨-, -, er⟩ := h
      simp only [List.cons.injEq] at er
      exact absurd er.1 (by decide)
  | (k1, v1) :: (p :: ps), (k2, v2) :: (q :: qs), r1, r2, hp, hq, e => by
      simp only [pyReprParamsBody, List.append_assoc, List.cons_append] at e
      have h := param_pair_inj (hp _ (List.mem_cons_self _ _))
        (hq _ (List.mem_cons_self _ _))
        (head_not_num_of_eq ',' (by decide) _)
        (head_not_num_of_eq ',' (by decide) _)
        (by simpa [List.append_assoc] using e)
      obtain ⟨ek, ev, er⟩ := h
      have ek2 : k1 = k2 := ek
      simp only [List.cons.injEq, true_and] at er
      have hrec := params_body_inj (p :: ps) (q :: qs)
        (fun x hx => hp x (List.mem_cons_of_mem _ hx))
        (fun x hx => hq x (List.mem_cons_of_mem _ hx)) er
      rw [ek2, ev, hrec.1]
      exact ⟨rfl, hrec.2⟩

/-- The rendered parameter dict followed by arbitrary text: recover the
parameters and the text. -/
theorem params_field_inj {ps qs : List (String × Int)} {r1 r2 : List Char}
    (hp : ∀ p ∈ ps, plainStr p.1 = true) (hq : ∀ q ∈ qs, plainStr q.1 = true)
    (e : pyReprParams ps ++ r1 = pyReprParams qs ++ r2) :
    ps = qs ∧ r1 = r2 := by
  simp only [pyReprParams, List.cons_append, List.append_assoc,
    List.singleton_append, List.cons.injEq, true_and] at e
  exact params_body_inj ps qs hp hq e

/-- Injectivity of the canonical stringified map on plain configurations: two
maps differing in at least one field render to different strings. -/
theorem canonicalChars_inj {m1 m2 : ConfigHash}
    (h1 : plainMap m1 = true) (h2 : plainMap m2 = true)
    (e : canonicalChars m1 = canonicalChars m2) : m1 = m2 := by
  obtain ⟨f1, mk1, a1, hd1, b1, hb1, v1, pl1, mo1, pr1, bu1, bf1⟩ := m1
  obtain ⟨f2, mk2, a2, hd2, b2, hb2, v2, pl2, mo2, pr2, bu2, bf2⟩ := m2
  simp only [plainMap, Bool.and_eq_true] at h1 h2
  obtain ⟨⟨⟨⟨⟨⟨⟨⟨hpf1, hpm1⟩, hpa1⟩, hph1⟩, hpb1⟩, hphb1⟩, hppl1⟩, hpmo1⟩,
    hppr1⟩ := h1
  obtain ⟨⟨⟨⟨⟨⟨⟨⟨hpf2, hpm2⟩, hpa2⟩, hph2⟩, hpb2⟩, hphb2⟩, hppl2⟩, hpmo2⟩,
    hppr2⟩ := h2
  simp only [canonicalChars, fieldSep, List.cons_append, List.append_assoc,
    List.singleton_append, List.cons.injEq, List.append_right_inj,
    eq_self_iff_true, true_and] at e
  obtain ⟨ef, e⟩ := optStr_field_inj hpf1 hpf2 e
  simp only [List.cons.injEq, List.append_right_inj, eq_self_iff_true,
    true_and] at e
  obtain ⟨em, e⟩ := optStr_field_inj hpm1 hpm2 e
  simp only [List.cons.injEq, List.append_right_inj, eq_self_iff_true,
    true_and] at e
  obtain ⟨ea, e⟩ := optStr_field_inj hpa1 hpa2 e
  simp only [List.cons.injEq, List.append_right_inj, eq_self_iff_true,
    true_and] at e
  obtain ⟨eh, e⟩ := optStr_field_inj hph1 hph2 e
  simp only [List.cons.injEq, List.append_right_inj, eq_self_iff_true,
    true_and] at e
  obtain ⟨eb, e⟩ := optStr_field_inj hpb1 hpb2 e
  simp only [List.cons.injEq, List.append_right_inj, eq_self_iff_true,
    true_and] at e
  obtain ⟨ehb, e⟩ := optStr_field_inj hphb1 hphb2 e
  simp only [List.cons.injEq, List.append_right_inj, eq_self_iff_true,
    true_and] at e
  obtain ⟨ev, e⟩ := optIntList_field_inj e
  simp only [List.cons.injEq, List.append_right_inj, eq_self_iff_true,
    true_and] at e
  obtain ⟨epl, e⟩ := str_field_inj hppl1 hppl2 e
  simp only [List.cons.injEq, List.append_right_inj, eq_self_iff_true,
    true_and] at e
  obtain ⟨emo, e⟩ := str_field_inj hpmo1 hpmo2 e
  simp only [List.cons.injEq, List.append_right_inj, eq_self_iff_true,
    true_and] at e
  obtain ⟨epr, e⟩ := params_field_inj (List.all_eq_true.mp hppr1)
    (List.all_eq_true.mp hppr2) e
  simp only [List.cons.injEq, List.append_right_inj, eq_self_iff_true,
    true_and] at e
  obtain ⟨ebu, e⟩ := int_field_inj (head_not_num_of_eq ',' (by decide) _)
    (head_not_num_of_eq ',' (by decide) _) e
  simp only [List.cons.injEq, List.append_right_inj, eq_self_iff_true,
    true_and] at e
  obtain ⟨ebf, -⟩ := int_field_inj (head_not_num_of_eq rcub (by decide) _)
    (head_not_num_of_eq rcub (by decide) _) e
  rw [ef, em, ea, eh, eb, ehb, ev, epl, emo, epr, ebu, ebf]

/-- The configuration-map space is infinite (the buffer field alone ranges
over the integers). -/
instance : Infinite ConfigHash :=
  Infinite.of_injective
    (fun n : Nat =>
      ⟨none, none, none, none, none, none, none, "", "", [], 0, (n : Int)⟩)
    (by
      intro a b h
      simpa [ConfigHash.mk.injEq] using h)

/-- Any assignment of identifiers to canonical strings collapses two distinct
configuration maps: the map space is infinite, the 128-bit identifier space
finite.  This covers the real MD5-based uuid3 as much as any stand-in. -/
theorem digest_not_injective (f : String → UID) :
    ∃ m1 m2 : ConfigHash, m1 ≠ m2 ∧ f (canonicalStr m1) = f (canonicalStr m2) :=
  Finite.exists_ne_map_eq_of_infinite _

/-- Claim C1 (amended): the run identity is a pure function of the canonical
configuration map — equal maps yield equal identifiers — and on plain
configurations two maps differing in at least one field always yield
different canonical strings; the identifier itself is a 128-bit digest of
that string, so distinctness of the identifiers, as opposed to the strings,
is not guaranteed. -/
theorem run_identity_function_of_config :
    (∀ (bt1 bt2 : Backtest) (pn1 pn2 mn1 mn2 : String)
      (ps1 ps2 : List (String × Int)) (bu1 bu2 bf1 bf2 : Int),
      bt1.configHash pn1 mn1 ps1 bu1 bf1 = bt2.configHash pn2 mn2 ps2 bu2 bf2 →
      bt1.uid pn1 mn1 ps1 bu1 bf1 = bt2.uid pn2 mn2 ps2 bu2 bf2) ∧
    (∀ m1 m2 : ConfigHash, plainMap m1 = true → plainMap m2 = true →
      m1 ≠ m2 → canonicalStr m1 ≠ canonicalStr m2) := by
  constructor
  · intro bt1 bt2 pn1 pn2 mn1 mn2 ps1 ps2 bu1 bu2 bf1 bf2 h
    rw [Backtest.uid, Backtest.uid, h]
  · intro m1 m2 h1 h2 hne hc
    exact hne (canonicalChars_inj h1 h2 (congrArg String.data hc))

/-- Counterexample to C1 as stated: some two distinct canonical maps receive
the same identifier, because the identifier space is finite and the map space
is not — a collision the claim's "any differing field gives a different
identifier" excludes. -/
theorem run_identity_collision_cex :
    ∃ m1 m2 : ConfigHash, m1 ≠ m2 ∧
      uuid3 (canonicalStr m1) = uuid3 (canonicalStr m2) :=
  digest_not_injective uuid3

end BTHub
